import Mathlib

/-!
Verification of the Persson–Brener effective-adhesion scripts (`main.py`,
`XPB_plot.py`) against their design specification.

Modelling conventions:
* Python floats / mpmath arbitrary-precision numbers are modelled by `ℝ`.
* The external special-function library (`mp.hyper`, `mp.gamma`) is modelled
  by an uninterpreted interface `Oracle`; the repository code is embedded as
  a function of that interface.  The fact that the true gamma function has
  no zeros is taken as an explicit hypothesis where it matters.
* Python raises `ZeroDivisionError` on division by (exactly) zero, both for
  floats and for mpmath numbers; division is therefore embedded as the
  fallible `pydiv`.  Errors propagate as `Except.error`, matching uncaught
  Python exceptions.
* `float(...)` conversion at the end of the solver is the identity here
  (real-valued model).
-/

noncomputable section

namespace PerssonBrener

open Real

/-- Errors a run of the scripts can raise, plus the two error kinds that the
specification names (`DomainError`, `DivisionSingularity`) so that claims
about them can be stated.  `convergenceFailure` models the
`RuntimeError(f"Convergence failed at ν̂ = {nu:g}")` raise site: the payload
is exactly the data interpolated into the message, namely `nu`. -/
inductive PyErr where
  | zeroDivision : PyErr
  | convergenceFailure (nuVal : ℝ) : PyErr
  | domainError : PyErr
  | divisionSingularity : PyErr

/-- The external arbitrary-precision library surface used by the scripts:
`mp.hyper (a_list, b_list, z)` and `mp.gamma b`. -/
structure Oracle where
  hyper : List ℝ → List ℝ → ℝ → ℝ
  gammaF : ℝ → ℝ

/-- Python division: raises `ZeroDivisionError` when the denominator is
exactly zero, otherwise returns the quotient. -/
def pydiv (a b : ℝ) : Except PyErr ℝ :=
  if b = 0 then .error .zeroDivision else .ok (a / b)

namespace Main

/-- `_gamma_product(b_list)` from `main.py`: `prod = 1; for b in b_list:
prod *= mp.gamma(b)`. -/
def gammaProduct (O : Oracle) (bList : List ℝ) : ℝ :=
  bList.foldl (fun prod b => prod * O.gammaF b) 1

/-- `hyper_reg(a_list, b_list, z)` from `main.py`:
`mp.hyper(a_list, b_list, z) / _gamma_product(b_list)`. -/
def hyper_reg (O : Oracle) (aList bList : List ℝ) (z : ℝ) : Except PyErr ℝ :=
  pydiv (O.hyper aList bList z) (gammaProduct O bList)

/-- `I_value(n, nu, Gamma)` from `main.py`, lines 44–67, embedded with the
source's evaluation order (the prefactor's division executes first, the
hypergeometric calls afterwards). -/
def I_value (O : Oracle) (n nu Γ : ℝ) : Except PyErr ℝ := do
  let pre ← pydiv ((2:ℝ) ^ (-3 - 2*n) * Real.pi ^ (-1.5 - n)) ((n - 1) * nu)
  let x ← pydiv Γ (4 * Real.pi * nu)
  let x_sq := x ^ 2
  let z := -x_sq
  let hyper1 := O.hyper [-0.5] [0.5 - n/2, 1 - n/2] z
  let term1 := -(4:ℝ) ^ (1 + n) * Real.pi ^ (0.5 + n) *
    (Γ - 2 * (n - 1) * Real.pi * nu * hyper1)
  let hyper2 ← hyper_reg O [(n - 1)/2] [0.5, (2 + n)/2] z
  let hyper3 ← hyper_reg O [n/2] [1.5, (3 + n)/2] z
  let q ← pydiv Γ nu
  let term2 := 2 * Real.pi * q ^ n *
    (4 * Real.pi * nu * O.gammaF (1 - n/2) * hyper2 +
      Γ * O.gammaF (1.5 - n/2) * hyper3)
  return pre * (term1 + term2)

/-- The `for _ in range(max_iter)` loop body of `gamma_eff`, by fuel;
running out of fuel is the `raise RuntimeError(...)` after the loop. -/
def gammaLoop (O : Oracle) (n k nu tol : ℝ) : ℝ → ℕ → Except PyErr ℝ
  | _, 0 => .error (.convergenceFailure nu)
  | Γ, fuel + 1 => do
      let I ← I_value O n nu Γ
      let Γnext ← pydiv 1 (1 - (1 - k) * I)
      if |Γnext - Γ| < tol then return Γnext
      else gammaLoop O n k nu tol Γnext fuel

/-- `gamma_eff(n, k, nu, tol, max_iter)` from `main.py`: the fixed-point
iteration seeded at `Gamma = 1.0`. -/
def gamma_eff (O : Oracle) (n k nu tol : ℝ) (maxIter : ℕ) : Except PyErr ℝ :=
  gammaLoop O n k nu tol 1 maxIter

/-- The script's defaults `tol=1e-10, max_iter=200` applied, as the
module-level sweep calls it. -/
def gamma_eff_default (O : Oracle) (n k nu : ℝ) : Except PyErr ℝ :=
  gamma_eff O n k nu (1e-10) 200

/-- One curve of the module-level sweep (`main.py` line 86): the list
comprehension `[gamma_eff(n, k, nu) for nu in nu_vals]`.  An exception at
any point propagates, aborting the comprehension. -/
def curve (O : Oracle) (n k : ℝ) (nuVals : List ℝ) : Except PyErr (List ℝ) :=
  nuVals.mapM (fun nu => gamma_eff_default O n k nu)

/-- The module-level sweep (`main.py` lines 85–87): `for n in n_list:`
compute the curve for `n`.  An exception aborts the whole sweep. -/
def sweep (O : Oracle) (k : ℝ) (nList nuVals : List ℝ) :
    Except PyErr (List (List ℝ)) :=
  nList.mapM (fun n => curve O n k nuVals)

end Main

namespace XPB

/-- `_gamma_product(b_list)` from `XPB_plot.py` (textually identical to the
one in `main.py`). -/
def gammaProduct (O : Oracle) (bList : List ℝ) : ℝ :=
  bList.foldl (fun prod b => prod * O.gammaF b) 1

/-- `hyper_reg(a_list, b_list, z)` from `XPB_plot.py`. -/
def hyper_reg (O : Oracle) (aList bList : List ℝ) (z : ℝ) : Except PyErr ℝ :=
  pydiv (O.hyper aList bList z) (gammaProduct O bList)

/-- `I_value(n, nu, Gamma)` from `XPB_plot.py`, lines 38–61. -/
def I_value (O : Oracle) (n nu Γ : ℝ) : Except PyErr ℝ := do
  let pre ← pydiv ((2:ℝ) ^ (-3 - 2*n) * Real.pi ^ (-1.5 - n)) ((n - 1) * nu)
  let x ← pydiv Γ (4 * Real.pi * nu)
  let x_sq := x ^ 2
  let z := -x_sq
  let hyper1 := O.hyper [-0.5] [0.5 - n/2, 1 - n/2] z
  let term1 := -(4:ℝ) ^ (1 + n) * Real.pi ^ (0.5 + n) *
    (Γ - 2 * (n - 1) * Real.pi * nu * hyper1)
  let hyper2 ← hyper_reg O [(n - 1)/2] [0.5, (2 + n)/2] z
  let hyper3 ← hyper_reg O [n/2] [1.5, (3 + n)/2] z
  let q ← pydiv Γ nu
  let term2 := 2 * Real.pi * q ^ n *
    (4 * Real.pi * nu * O.gammaF (1 - n/2) * hyper2 +
      Γ * O.gammaF (1.5 - n/2) * hyper3)
  return pre * (term1 + term2)

/-- The `for _ in range(max_iter)` loop of `gamma_eff_PB`, by fuel. -/
def gammaLoop (O : Oracle) (n k nu tol : ℝ) : ℝ → ℕ → Except PyErr ℝ
  | _, 0 => .error (.convergenceFailure nu)
  | Γ, fuel + 1 => do
      let I ← I_value O n nu Γ
      let Γnext ← pydiv 1 (1 - (1 - k) * I)
      if |Γnext - Γ| < tol then return Γnext
      else gammaLoop O n k nu tol Γnext fuel

/-- `gamma_eff_PB(n, k, nu, tol, max_iter)` from `XPB_plot.py`, lines
63–71. -/
def gamma_eff_PB (O : Oracle) (n k nu tol : ℝ) (maxIter : ℕ) : Except PyErr ℝ :=
  gammaLoop O n k nu tol 1 maxIter

/-- The rate conversion of `XPB_plot.py` lines 82–84:
`C1 = 2.887; C2 = 3.24 * np.pi ** (2/3); nu = C1 * (r_u / C2) ** 1.171`. -/
def nuOfRu (ru : ℝ) : ℝ :=
  2.887 * (ru / (3.24 * Real.pi ^ ((2:ℝ)/3))) ^ (1.171:ℝ)

/-- Inverse of the rate conversion, solving `ν = C1·(r_u/C2)^1.171` for
`r_u`; used to state the specification's invertibility property. -/
def ruOfNu (nu : ℝ) : ℝ :=
  3.24 * Real.pi ^ ((2:ℝ)/3) * (nu / 2.887) ^ ((1.171:ℝ)⁻¹)

end XPB

/-! ### Specification-side definitions

written from the words of the specification / claims, to be compared with
the source-side embeddings above. -/

/-- Claim C2 and spec §4.2's `regPFq`: the hypergeometric sum divided by
the product of gamma functions of its denominator parameters. -/
def regPFq (O : Oracle) (a b : List ℝ) (z : ℝ) : ℝ :=
  O.hyper a b z / (b.map O.gammaF).prod

/-- The integral kernel exactly as spec §4.2 / claim C2 write it:
`prefactor·(term1+term2)` with `z = −(Γ/(4π·ν))²`. -/
def I_spec (O : Oracle) (n nu Γ : ℝ) : ℝ :=
  let z := -((Γ / (4 * Real.pi * nu)) ^ 2)
  let prefactor := (2:ℝ) ^ (-3 - 2*n) * Real.pi ^ (-1.5 - n) / ((n - 1) * nu)
  let term1 := -(4:ℝ) ^ (1 + n) * Real.pi ^ (0.5 + n) *
    (Γ - 2 * (n - 1) * Real.pi * nu * O.hyper [-0.5] [0.5 - n/2, 1 - n/2] z)
  let term2 := 2 * Real.pi * (Γ / nu) ^ n *
    (4 * Real.pi * nu * O.gammaF (1 - n/2) * regPFq O [(n - 1)/2] [0.5, (2 + n)/2] z +
      Γ * O.gammaF (1.5 - n/2) * regPFq O [n/2] [1.5, (3 + n)/2] z)
  prefactor * (term1 + term2)

/-- A concrete interpretation of the library interface, used in witnesses
and counterexamples: `mp.hyper` returns `c` on the call shape with
numerator list `[-0.5]` (the kernel's `hyper1` call) and `0` on the other
two call shapes; `mp.gamma` returns `1` everywhere. -/
def ceOracle (c : ℝ) : Oracle :=
  ⟨fun a _ _ => if a = [-0.5] then c else 0, fun _ => 1⟩

/-- The sequence of Γ estimates described by claim C1: seed `1.0`, then
repeat the update `Γ_next = 1/(1−(1−k)·I(n,ν,Γ))`. -/
def gammaIter (O : Oracle) (n k nu : ℝ) : ℕ → Except PyErr ℝ
  | 0 => .ok 1
  | m + 1 => do
      let Γ ← gammaIter O n k nu m
      let I ← Main.I_value O n nu Γ
      pydiv 1 (1 - (1 - k) * I)

/-- Claim C1's stopping condition holds at step `m`: the `m`-th and
`(m+1)`-st estimates both exist and differ by less than `tol`. -/
def convAt (O : Oracle) (n k nu tol : ℝ) (m : ℕ) : Prop :=
  ∃ a b, gammaIter O n k nu m = .ok a ∧ gammaIter O n k nu (m + 1) = .ok b ∧
    |b - a| < tol

/-- Oracles for the C6 counterexample: both interpret `mp.hyper` as the
constant `1`; they assign the gamma function different values at the
non-positive integer `0` (`1` resp. `2`) and agree elsewhere. -/
def oracleGammaOne : Oracle := ⟨fun _ _ _ => 1, fun _ => 1⟩

/-- Companion oracle to `oracleGammaOne`, differing only at `gammaF 0`. -/
def oracleGammaTwo : Oracle := ⟨fun _ _ _ => 1, fun x => if x = 0 then 2 else 1⟩

/-- A family of library interpretations keyed on the kernel's first
hypergeometric call: `mp.hyper` returns `f b z` on the call shape with
numerator list `[-0.5]` (the kernel's `hyper1` call) and `0` on the other
call shapes; `mp.gamma` returns `1` everywhere.  Since `hyper1`'s
denominator list is `[0.5 − n/2, 1 − n/2]` and its argument is
`z = −(Γ/(4πν))²`, such an interpretation can distinguish the (n, ν) pair
being solved. -/
def keyOracle (f : List ℝ → ℝ → ℝ) : Oracle :=
  ⟨fun a b z => if a = [-0.5] then f b z else 0, fun _ => 1⟩

/-- Library interpretation for the C5 witness and counterexample, chosen so
that over the grid [2, 1] the solves (n = 3, ν = 2), (n = 3, ν = 1) and
(n = 5, ν = 2) all converge on the first iteration while (n = 5, ν = 1)
raises ZeroDivisionError on the first iteration: the value returned on the
`hyper1` shape is keyed on the denominator list (which determines n) and on
`z` at the seed Γ = 1 (which determines ν). -/
def wfun (b : List ℝ) (z : ℝ) : ℝ :=
  if b = [0.5 - 5/2, 1 - 5/2] then
    (if z = -((1/(8*Real.pi))^2) then (16*Real.pi)⁻¹ else 2 + (8*Real.pi)⁻¹)
  else
    (if z = -((1/(8*Real.pi))^2) then (8*Real.pi)⁻¹ else (4*Real.pi)⁻¹)

/-- The C5 oracle itself: `keyOracle` applied to `wfun`. -/
def wOracle : Oracle := keyOracle wfun

/-! ### Helper lemmas -/

theorem foldl_mul_map (f : ℝ → ℝ) (l : List ℝ) (a : ℝ) :
    l.foldl (fun p b => p * f b) a = a * (l.map f).prod := by
  induction l generalizing a with
  | nil => simp
  | cons x xs ih => simp [List.foldl, ih (a * f x), mul_assoc]

theorem gammaProduct_eq_prod (O : Oracle) (b : List ℝ) :
    Main.gammaProduct O b = (b.map O.gammaF).prod := by
  simp [Main.gammaProduct, foldl_mul_map]

theorem pydiv_ok {a b : ℝ} (hb : b ≠ 0) : pydiv a b = .ok (a / b) := by
  simp [pydiv, hb]

theorem pydiv_error {a b : ℝ} {e : PyErr} (h : pydiv a b = .error e) :
    e = PyErr.zeroDivision := by
  unfold pydiv at h
  split at h
  · exact (Except.error.injEq _ _).mp h |>.symm
  · exact absurd h (by simp)

theorem except_bind_error {ε α β : Type} {m : Except ε α} {g : α → Except ε β} {e : ε}
    (h : m >>= g = .error e) : m = .error e ∨ ∃ a, m = .ok a ∧ g a = .error e := by
  cases m with
  | error e' =>
      left
      simp only [bind, Except.bind] at h
      have he : e' = e := by simpa using h
      rw [he]
  | ok a =>
      right
      exact ⟨a, rfl, by simpa [bind, Except.bind] using h⟩

theorem ok_bind {ε α β : Type} (a : α) (f : α → Except ε β) :
    (Except.ok a >>= f) = f a := rfl

theorem error_bind {ε α β : Type} (e : ε) (f : α → Except ε β) :
    ((Except.error e : Except ε α) >>= f) = .error e := rfl

theorem pure_eq_ok {ε α : Type} (a : α) : (pure a : Except ε α) = .ok a := rfl

theorem hyper_reg_error {O : Oracle} {a b : List ℝ} {z : ℝ} {e : PyErr}
    (h : Main.hyper_reg O a b z = .error e) : e = PyErr.zeroDivision :=
  pydiv_error h

theorem I_value_error {O : Oracle} {n nu Γ : ℝ} {e : PyErr}
    (h : Main.I_value O n nu Γ = .error e) : e = PyErr.zeroDivision := by
  unfold Main.I_value at h
  rcases except_bind_error h with h | ⟨pre, hpre, h⟩
  · exact pydiv_error h
  rcases except_bind_error h with h | ⟨x, hx, h⟩
  · exact pydiv_error h
  rcases except_bind_error h with h | ⟨h2, hh2, h⟩
  · exact hyper_reg_error h
  rcases except_bind_error h with h | ⟨h3, hh3, h⟩
  · exact hyper_reg_error h
  rcases except_bind_error h with h | ⟨q, hq, h⟩
  · exact pydiv_error h
  · exact absurd h (by simp [pure, Except.pure])

theorem gammaLoop_zero (O : Oracle) (n k nu tol Γ : ℝ) :
    Main.gammaLoop O n k nu tol Γ 0 = .error (.convergenceFailure nu) := rfl

theorem gammaLoop_succ (O : Oracle) (n k nu tol Γ : ℝ) (fuel : ℕ) :
    Main.gammaLoop O n k nu tol Γ (fuel + 1) = (do
      let I ← Main.I_value O n nu Γ
      let Γnext ← pydiv 1 (1 - (1 - k) * I)
      if |Γnext - Γ| < tol then return Γnext
      else Main.gammaLoop O n k nu tol Γnext fuel) := rfl

theorem gammaLoop_error {O : Oracle} {n k nu tol : ℝ} :
    ∀ {fuel : ℕ} {Γ : ℝ} {e : PyErr},
      Main.gammaLoop O n k nu tol Γ fuel = .error e →
      e = PyErr.zeroDivision ∨ e = PyErr.convergenceFailure nu := by
  intro fuel
  induction fuel with
  | zero =>
      intro Γ e h
      rw [gammaLoop_zero] at h
      right
      exact ((Except.error.injEq _ _).mp h).symm
  | succ fuel ih =>
      intro Γ e h
      rw [gammaLoop_succ] at h
      rcases except_bind_error h with h | ⟨I, hI, h⟩
      · exact Or.inl (I_value_error h)
      rcases except_bind_error h with h | ⟨Γnext, hΓ, h⟩
      · exact Or.inl (pydiv_error h)
      split at h
      · exact absurd h (by simp [pure, Except.pure])
      · exact ih h

theorem gamma_eff_error {O : Oracle} {n k nu tol : ℝ} {maxIter : ℕ} {e : PyErr}
    (h : Main.gamma_eff O n k nu tol maxIter = .error e) :
    e = PyErr.zeroDivision ∨ e = PyErr.convergenceFailure nu :=
  gammaLoop_error h

theorem gammaProduct_ne_zero {O : Oracle} (hg : ∀ x, O.gammaF x ≠ 0)
    (b : List ℝ) : Main.gammaProduct O b ≠ 0 := by
  rw [gammaProduct_eq_prod]
  apply List.prod_ne_zero
  intro hmem
  rcases List.mem_map.mp hmem with ⟨y, _, hy⟩
  exact hg y hy

/-- The kernel succeeds on the valid domain and returns exactly the
spec-side formula; the only modelling assumption is that the library's
gamma function has no zeros (true of the real gamma function). -/
theorem I_value_ok (O : Oracle) {n nu : ℝ} (Γ : ℝ) (hn : n ≠ 1) (hnu : nu ≠ 0)
    (hg : ∀ x, O.gammaF x ≠ 0) :
    Main.I_value O n nu Γ = .ok (I_spec O n nu Γ) := by
  have h1 : (n - 1) * nu ≠ 0 := mul_ne_zero (sub_ne_zero.mpr hn) hnu
  have h4 : 4 * Real.pi * nu ≠ 0 :=
    mul_ne_zero (mul_ne_zero (by norm_num) Real.pi_ne_zero) hnu
  have hp2 : (List.map O.gammaF [0.5, (2 + n)/2]).prod ≠ 0 := by
    rw [← gammaProduct_eq_prod]
    exact gammaProduct_ne_zero hg _
  have hp3 : (List.map O.gammaF [1.5, (3 + n)/2]).prod ≠ 0 := by
    rw [← gammaProduct_eq_prod]
    exact gammaProduct_ne_zero hg _
  unfold Main.I_value Main.hyper_reg I_spec regPFq
  simp only [pydiv_ok h1, pydiv_ok h4, pydiv_ok hnu, gammaProduct_eq_prod,
    pydiv_ok hp2, pydiv_ok hp3, bind, Except.bind, pure, Except.pure]

theorem I_spec_ceOracle (c Γ : ℝ) :
    I_spec (ceOracle c) 3 1 Γ = c - Γ / (4 * Real.pi) := by
  have hpi := Real.pi_pos
  have hb : (4:ℝ) ^ (1 + (3:ℝ)) = 256 := by
    rw [show (1 + (3:ℝ)) = ((4:ℕ):ℝ) by norm_num, Real.rpow_natCast]
    norm_num
  have ha : (2:ℝ) ^ (-3 - 2*(3:ℝ)) = (512:ℝ)⁻¹ := by
    rw [show (-3 - 2*(3:ℝ)) = ((-9:ℤ):ℝ) by norm_num, Real.rpow_intCast]
    norm_num
  unfold I_spec regPFq ceOracle
  norm_num [List.cons.injEq, hb, ha]
  have hpinv2 : Real.pi ^ ((-9:ℝ)/2) = (Real.pi ^ ((7:ℝ)/2))⁻¹ * Real.pi⁻¹ := by
    rw [← Real.rpow_neg_one Real.pi, ← Real.rpow_neg (le_of_lt hpi),
      ← Real.rpow_add hpi]
    norm_num
  have hq2 : Real.pi ^ ((7:ℝ)/2) ≠ 0 := ne_of_gt (Real.rpow_pos_of_pos hpi _)
  field_simp
  rw [hpinv2]
  field_simp
  ring

theorem I_value_ceOracle (c Γ : ℝ) :
    Main.I_value (ceOracle c) 3 1 Γ = .ok (c - Γ / (4 * Real.pi)) := by
  rw [I_value_ok (ceOracle c) Γ (by norm_num) one_ne_zero (fun _ => one_ne_zero),
    I_spec_ceOracle]

/-- Closed form of the spec-side kernel under any `keyOracle f`: the two
regularized calls contribute `0`, leaving `f` evaluated at `hyper1`'s
denominator list and argument, minus `Γ/(2π(n−1)ν)`.  The hypotheses
`n ≠ 0` and `n ≠ -1` keep the `hyper2`/`hyper3` numerator lists distinct
from `hyper1`'s `[-0.5]`. -/
theorem I_spec_keyOracle (f : List ℝ → ℝ → ℝ) (n nu Γ : ℝ)
    (hn : n ≠ 1) (hn0 : n ≠ 0) (hnm1 : n ≠ -1) (hnu : nu ≠ 0) :
    I_spec (keyOracle f) n nu Γ =
      f [0.5 - n/2, 1 - n/2] (-((Γ / (4 * Real.pi * nu)) ^ 2)) -
        Γ / (2 * Real.pi * (n - 1) * nu) := by
  have hpi := Real.pi_pos
  have hc2 : ¬(([(n - 1)/2] : List ℝ) = [-0.5]) := by
    simp only [List.cons.injEq, and_true]
    intro h
    apply hn0
    linarith
  have hc3 : ¬(([n/2] : List ℝ) = [-0.5]) := by
    simp only [List.cons.injEq, and_true]
    intro h
    apply hnm1
    linarith
  have h4exp : (4:ℝ) ^ (1 + n) = (2:ℝ) ^ (2 * (1 + n)) := by
    rw [show (2:ℝ) * (1 + n) = ((2:ℕ):ℝ) * (1 + n) by norm_num,
      Real.rpow_natCast_mul (by norm_num : (0:ℝ) ≤ 2)]
    norm_num
  have e1 : (2:ℝ) ^ (-3 - 2*n) = 1/2 * ((4:ℝ) ^ (1 + n))⁻¹ := by
    rw [h4exp, ← Real.rpow_neg (by norm_num : (0:ℝ) ≤ 2),
      show (1:ℝ)/2 = (2:ℝ) ^ (-1:ℝ) from by rw [Real.rpow_neg_one]; norm_num,
      ← Real.rpow_add (by norm_num : (0:ℝ) < 2)]
    congr 1
    ring
  have e2 : Real.pi ^ (-(3/2) - n) = Real.pi⁻¹ * (Real.pi ^ (1/2 + n))⁻¹ := by
    rw [← Real.rpow_neg_one Real.pi, ← Real.rpow_neg (le_of_lt hpi),
      ← Real.rpow_add hpi]
    congr 1
    ring
  have h4ne : ((4:ℝ) ^ (1 + n)) ≠ 0 :=
    ne_of_gt (Real.rpow_pos_of_pos (by norm_num) _)
  have hpne : (Real.pi ^ ((1:ℝ)/2 + n)) ≠ 0 :=
    ne_of_gt (Real.rpow_pos_of_pos hpi _)
  have hpine := Real.pi_ne_zero
  have hn1 : n - 1 ≠ 0 := sub_ne_zero.mpr hn
  unfold I_spec regPFq keyOracle
  simp only [hc2, hc3, if_true, if_false, ite_true, ite_false, if_pos rfl]
  norm_num
  rw [e1, e2]
  field_simp
  ring

/-- The source kernel under any `keyOracle f`, on the valid domain. -/
theorem I_value_keyOracle (f : List ℝ → ℝ → ℝ) (n nu Γ : ℝ)
    (hn : n ≠ 1) (hn0 : n ≠ 0) (hnm1 : n ≠ -1) (hnu : nu ≠ 0) :
    Main.I_value (keyOracle f) n nu Γ =
      .ok (f [0.5 - n/2, 1 - n/2] (-((Γ / (4 * Real.pi * nu)) ^ 2)) -
        Γ / (2 * Real.pi * (n - 1) * nu)) := by
  rw [I_value_ok (keyOracle f) Γ hn hnu (fun _ => one_ne_zero),
    I_spec_keyOracle f n nu Γ hn hn0 hnm1 hnu]

/-- With the kernel interpretation returning the constant
`2 + (4π)⁻¹` on the `hyper1` call, the first update's denominator
`1 − (1−k)·I` is exactly zero for `k = 1/2`, and the division raises. -/
theorem gammaLoop_zeroDenom (tol : ℝ) (fuel : ℕ) :
    Main.gammaLoop (ceOracle (2 + (4*Real.pi)⁻¹)) 3 (1/2) 1 tol 1 (fuel + 1) =
      .error .zeroDivision := by
  have hI : Main.I_value (ceOracle (2 + (4*Real.pi)⁻¹)) 3 1 1 = .ok 2 := by
    rw [I_value_ceOracle]
    congr 1
    rw [one_div]
    ring
  rw [gammaLoop_succ, hI]
  simp only [ok_bind]
  rw [show pydiv 1 (1 - (1 - 1/2) * 2) = (.error .zeroDivision : Except PyErr ℝ)
    from by norm_num [pydiv]]
  rfl

/-- With the kernel interpretation returning `2 − 2·10⁻³⁰ + (4π)⁻¹` on the
`hyper1` call, the first update's denominator is `10⁻³⁰`: not exactly zero,
so the update computes `Γ_next = 10³⁰` and the loop carries on with it. -/
theorem gammaLoop_tinyDenom (tol : ℝ) (fuel : ℕ) (htol : |(1e30:ℝ) - 1| < tol) :
    Main.gammaLoop (ceOracle (2 - 2e-30 + (4*Real.pi)⁻¹)) 3 (1/2) 1 tol 1 (fuel + 1) =
      .ok 1e30 := by
  have hI : Main.I_value (ceOracle (2 - 2e-30 + (4*Real.pi)⁻¹)) 3 1 1 =
      .ok (2 - 2e-30) := by
    rw [I_value_ceOracle]
    congr 1
    rw [one_div]
    ring
  rw [gammaLoop_succ, hI]
  simp only [ok_bind]
  rw [pydiv_ok (show (1:ℝ) - (1 - 1/2) * (2 - 2e-30) ≠ 0 by norm_num)]
  simp only [ok_bind]
  rw [show (1:ℝ) / (1 - (1 - 1/2) * (2 - 2e-30)) = 1e30 by norm_num]
  rw [if_pos htol]
  rfl

/-- Degenerate case `k = 1`: `(1−k) = 0`, the first update yields exactly
`1`, `|1 − 1| = 0 < tol`, so the solver returns `1.0` on the first
iteration, for any `n ≠ 1`, `ν ≠ 0` and any library interpretation whose
gamma function has no zeros. -/
theorem gamma_eff_k_one (O : Oracle) {n nu tol : ℝ} {maxIter : ℕ}
    (hn : n ≠ 1) (hnu : nu ≠ 0) (hg : ∀ x, O.gammaF x ≠ 0)
    (htol : 0 < tol) (hm : 1 ≤ maxIter) :
    Main.gamma_eff O n 1 nu tol maxIter = .ok 1 := by
  obtain ⟨m, rfl⟩ := Nat.exists_eq_add_of_le hm
  unfold Main.gamma_eff
  rw [Nat.add_comm, gammaLoop_succ, I_value_ok O 1 hn hnu hg]
  simp only [ok_bind]
  rw [show (1:ℝ) - (1 - 1) * I_spec O n nu 1 = 1 by ring,
    pydiv_ok one_ne_zero]
  simp only [ok_bind]
  rw [show (1:ℝ) / 1 = 1 by norm_num]
  rw [if_pos (by simpa using htol)]
  rfl

theorem pydiv_ok_inv {a b q : ℝ} (h : pydiv a b = .ok q) : b ≠ 0 ∧ q = a / b := by
  unfold pydiv at h
  split at h
  · exact absurd h (by simp)
  · exact ⟨by assumption, ((Except.ok.injEq _ _).mp h).symm⟩

/-- One solver step whose update denominator is nonzero computes
`Γ_next = 1/(1−(1−k)·I)` and either returns it (if within `tol` of the
current estimate) or continues iterating from it — no singularity check of
any kind is performed. -/
theorem gammaLoop_step {O : Oracle} {n k nu tol Γ I : ℝ} {fuel : ℕ}
    (hI : Main.I_value O n nu Γ = .ok I) (hd : 1 - (1 - k) * I ≠ 0) :
    Main.gammaLoop O n k nu tol Γ (fuel + 1) =
      if |1 / (1 - (1 - k) * I) - Γ| < tol then .ok (1 / (1 - (1 - k) * I))
      else Main.gammaLoop O n k nu tol (1 / (1 - (1 - k) * I)) fuel := by
  rw [gammaLoop_succ, hI]
  simp only [ok_bind]
  rw [pydiv_ok hd]
  simp only [ok_bind, pure_eq_ok]

/-- One solver step whose update denominator is exactly zero raises
`ZeroDivisionError` (from the division itself). -/
theorem gammaLoop_step_div {O : Oracle} {n k nu tol Γ I : ℝ} {fuel : ℕ}
    (hI : Main.I_value O n nu Γ = .ok I) (hd : 1 - (1 - k) * I = 0) :
    Main.gammaLoop O n k nu tol Γ (fuel + 1) = .error .zeroDivision := by
  rw [gammaLoop_succ, hI]
  simp only [ok_bind]
  rw [show pydiv 1 (1 - (1 - k) * I) = (.error .zeroDivision : Except PyErr ℝ)
    from by simp [pydiv, hd]]
  rfl

theorem gammaIter_succ (O : Oracle) (n k nu : ℝ) (m : ℕ) :
    gammaIter O n k nu (m + 1) = (do
      let Γ ← gammaIter O n k nu m
      let I ← Main.I_value O n nu Γ
      pydiv 1 (1 - (1 - k) * I)) := rfl

theorem iter_step {O : Oracle} {n k nu : ℝ} {s : ℕ} {gs b : ℝ}
    (hs : gammaIter O n k nu s = .ok gs)
    (hb : gammaIter O n k nu (s + 1) = .ok b) :
    ∃ I, Main.I_value O n nu gs = .ok I ∧ pydiv 1 (1 - (1 - k) * I) = .ok b := by
  rw [gammaIter_succ, hs] at hb
  simp only [ok_bind] at hb
  cases hI : Main.I_value O n nu gs with
  | error e =>
      rw [hI, error_bind] at hb
      exact absurd hb (by simp)
  | ok I =>
      rw [hI] at hb
      simp only [ok_bind] at hb
      exact ⟨I, rfl, hb⟩

theorem gammaIter_ok_pred {O : Oracle} {n k nu : ℝ} {m : ℕ} {b : ℝ}
    (h : gammaIter O n k nu (m + 1) = .ok b) :
    ∃ a, gammaIter O n k nu m = .ok a := by
  rw [gammaIter_succ] at h
  cases hm : gammaIter O n k nu m with
  | error e =>
      rw [hm, error_bind] at h
      exact absurd h (by simp)
  | ok a => exact ⟨a, rfl⟩

theorem gammaIter_ok_of_le {O : Oracle} {n k nu : ℝ} :
    ∀ {t j : ℕ}, j ≤ t → (∃ g, gammaIter O n k nu t = .ok g) →
      ∃ y, gammaIter O n k nu j = .ok y := by
  intro t
  induction t with
  | zero =>
      intro j hj hex
      rw [Nat.le_zero.mp hj]
      exact hex
  | succ t ih =>
      intro j hj hex
      rcases Nat.lt_succ_iff_lt_or_eq.mp (Nat.lt_succ_of_le hj) with hlt | rfl
      · obtain ⟨g, hg⟩ := hex
        exact ih (Nat.lt_succ_iff.mp hlt) (gammaIter_ok_pred hg)
      · exact hex

/-- If the stopping condition first holds `m` steps after reaching the
estimate `gs` (itself the `s`-th iterate), and at least `m+1` loop
iterations remain, the loop returns the `(s+m+1)`-st estimate. -/
theorem gammaLoop_reaches_conv {O : Oracle} {n k nu tol : ℝ} :
    ∀ (m s fuel : ℕ) (gs b : ℝ),
      gammaIter O n k nu s = .ok gs →
      m < fuel →
      (∀ j, s ≤ j → j < s + m → ¬ convAt O n k nu tol j) →
      (∃ a, gammaIter O n k nu (s + m) = .ok a ∧
        gammaIter O n k nu (s + m + 1) = .ok b ∧ |b - a| < tol) →
      Main.gammaLoop O n k nu tol gs fuel = .ok b := by
  intro m
  induction m with
  | zero =>
      intro s fuel gs b hs hfuel _ hconv
      obtain ⟨a, ha, hb, hab⟩ := hconv
      rw [Nat.add_zero] at ha hb
      rw [hs] at ha
      have hag : gs = a := (Except.ok.injEq _ _).mp ha
      obtain ⟨fuel', rfl⟩ : ∃ f', fuel = f' + 1 := ⟨fuel - 1, by omega⟩
      obtain ⟨I, hI, hpd⟩ := iter_step hs hb
      obtain ⟨hd, hbq⟩ := pydiv_ok_inv hpd
      have hab' : |b - gs| < tol := by rw [hag]; exact hab
      rw [gammaLoop_step hI hd, ← hbq, if_pos hab']
  | succ m ih =>
      intro s fuel gs b hs hfuel hnc hconv
      obtain ⟨fuel', rfl⟩ : ∃ f', fuel = f' + 1 := ⟨fuel - 1, by omega⟩
      obtain ⟨a, ha, hb2, hab⟩ := hconv
      obtain ⟨g1, hg1⟩ : ∃ g, gammaIter O n k nu (s + 1) = .ok g := by
        apply gammaIter_ok_of_le (t := s + (m + 1)) (by omega)
        exact ⟨a, ha⟩
      obtain ⟨I, hI, hpd⟩ := iter_step hs hg1
      obtain ⟨hd, hq⟩ := pydiv_ok_inv hpd
      have hne : ¬ |1 / (1 - (1 - k) * I) - gs| < tol := by
        intro hlt
        exact hnc s (Nat.le_refl s) (by omega) ⟨gs, g1, hs, hg1, by rw [hq]; exact hlt⟩
      rw [gammaLoop_step hI hd, if_neg hne, ← hq]
      apply ih (s + 1) fuel' g1 b hg1 (by omega)
      · intro j hj1 hj2
        exact hnc j (by omega) (by omega)
      · refine ⟨a, ?_, ?_, hab⟩
        · rw [show s + 1 + m = s + (m + 1) by omega]
          exact ha
        · rw [show s + 1 + m + 1 = s + (m + 1) + 1 by omega]
          exact hb2

/-- If the stopping condition never holds during the remaining `fuel`
iterations and every needed estimate exists (no arithmetic error), the
loop exhausts its bound and raises the convergence failure, whose payload
is `nu`. -/
theorem gammaLoop_noconv {O : Oracle} {n k nu tol : ℝ} :
    ∀ (fuel s : ℕ) (gs : ℝ),
      gammaIter O n k nu s = .ok gs →
      (∀ j, s ≤ j → j < s + fuel → ¬ convAt O n k nu tol j) →
      (∀ j, j ≤ s + fuel → ∃ g, gammaIter O n k nu j = .ok g) →
      Main.gammaLoop O n k nu tol gs fuel = .error (.convergenceFailure nu) := by
  intro fuel
  induction fuel with
  | zero => intro s gs _ _ _; exact gammaLoop_zero _ _ _ _ _ _
  | succ fuel ih =>
      intro s gs hs hnc hok
      obtain ⟨g1, hg1⟩ := hok (s + 1) (by omega)
      obtain ⟨I, hI, hpd⟩ := iter_step hs hg1
      obtain ⟨hd, hq⟩ := pydiv_ok_inv hpd
      have hne : ¬ |1 / (1 - (1 - k) * I) - gs| < tol := by
        intro hlt
        exact hnc s (Nat.le_refl s) (by omega) ⟨gs, g1, hs, hg1, by rw [hq]; exact hlt⟩
      rw [gammaLoop_step hI hd, if_neg hne, ← hq]
      apply ih (s + 1) g1 hg1
      · intro j hj1 hj2
        exact hnc j (by omega) (by omega)
      · intro j hj
        exact hok j (by omega)

theorem I_value_n1 (O : Oracle) (nu Γ : ℝ) :
    Main.I_value O 1 nu Γ = .error .zeroDivision := by
  unfold Main.I_value
  rw [show pydiv ((2:ℝ) ^ (-3 - 2*(1:ℝ)) * Real.pi ^ (-1.5 - (1:ℝ)))
      (((1:ℝ) - 1) * nu) = (.error .zeroDivision : Except PyErr ℝ) from by
    simp [pydiv]]
  rfl

theorem I_value_nu0 (O : Oracle) (n Γ : ℝ) :
    Main.I_value O n 0 Γ = .error .zeroDivision := by
  unfold Main.I_value
  rw [show pydiv ((2:ℝ) ^ (-3 - 2*n) * Real.pi ^ (-1.5 - n))
      ((n - 1) * 0) = (.error .zeroDivision : Except PyErr ℝ) from by
    simp [pydiv]]
  rfl

theorem gamma_eff_n1 (O : Oracle) (k nu tol : ℝ) (fuel : ℕ) :
    Main.gamma_eff O 1 k nu tol (fuel + 1) = .error .zeroDivision := by
  unfold Main.gamma_eff
  rw [gammaLoop_succ, I_value_n1]
  rfl

theorem I_value_c1 :
    Main.I_value (ceOracle (4*Real.pi)⁻¹) 3 1 1 = .ok 0 := by
  rw [I_value_ceOracle]
  congr 1
  rw [one_div]
  ring

theorem I_value_c5 :
    Main.I_value (ceOracle (2 + (4*Real.pi)⁻¹)) 3 1 1 = .ok 2 := by
  rw [I_value_ceOracle]
  congr 1
  rw [one_div]
  ring

theorem gamma_default_c5 :
    Main.gamma_eff_default (ceOracle (2 + (4*Real.pi)⁻¹)) 3 (1/2) 1 =
      .error .zeroDivision := by
  show Main.gammaLoop (ceOracle (2 + (4*Real.pi)⁻¹)) 3 (1/2) 1 (1e-10) 1 (199 + 1) =
    .error .zeroDivision
  exact gammaLoop_zeroDenom (1e-10) 199

theorem gamma_default_conv :
    Main.gamma_eff_default (ceOracle (4*Real.pi)⁻¹) 3 (1/2) 1 = .ok 1 := by
  show Main.gammaLoop (ceOracle (4*Real.pi)⁻¹) 3 (1/2) 1 (1e-10) 1 (199 + 1) = .ok 1
  rw [gammaLoop_step I_value_c1 (by norm_num)]
  rw [show (1:ℝ) / (1 - (1 - 1/2) * 0) = 1 by norm_num]
  rw [if_pos (by norm_num : |(1:ℝ) - 1| < 1e-10)]

theorem curve_c1 :
    Main.curve (ceOracle (4*Real.pi)⁻¹) 3 (1/2) [1] = .ok [1] := by
  unfold Main.curve
  simp only [List.mapM_cons, List.mapM_nil, gamma_default_conv, ok_bind, pure_eq_ok]

theorem curve_c5_err :
    Main.curve (ceOracle (2 + (4*Real.pi)⁻¹)) 3 (1/2) [1] = .error .zeroDivision := by
  unfold Main.curve
  simp only [List.mapM_cons, gamma_default_c5, error_bind]

/-- A solve whose first kernel value is exactly `0` gives Γ_next = 1/(1−0) =
1 = Γ and converges on the first iteration under the script defaults. -/
theorem gamma_default_of_I1_zero (O : Oracle) (n k nu : ℝ)
    (hI : Main.I_value O n nu 1 = .ok 0) :
    Main.gamma_eff_default O n k nu = .ok 1 := by
  show Main.gammaLoop O n k nu (1e-10) 1 (199 + 1) = .ok 1
  rw [gammaLoop_step hI (by norm_num)]
  rw [show (1:ℝ) / (1 - (1 - k) * 0) = 1 by norm_num]
  rw [if_pos (by norm_num : |(1:ℝ) - 1| < 1e-10)]

/-- A solve with k = 1/2 whose first kernel value is exactly `2` has first
update denominator 1 − (1/2)·2 = 0 and raises ZeroDivisionError under the
script defaults. -/
theorem gamma_default_of_I1_two (O : Oracle) (n nu : ℝ)
    (hI : Main.I_value O n nu 1 = .ok 2) :
    Main.gamma_eff_default O n (1/2) nu = .error .zeroDivision := by
  show Main.gammaLoop O n (1/2) nu (1e-10) 1 (199 + 1) = .error .zeroDivision
  exact gammaLoop_step_div hI (by norm_num)

theorem z_two_eq : -((1/(4*Real.pi*2))^2 : ℝ) = -((1/(8*Real.pi))^2) := by
  ring

theorem z_one_ne : ¬(-((1/(4*Real.pi*1))^2 : ℝ) = -((1/(8*Real.pi))^2)) := by
  intro h
  rw [neg_inj] at h
  field_simp at h
  rcases h with h | h
  · norm_num at h
  · exact Real.pi_ne_zero h

theorem blist_3_ne : ¬(([0.5 - 3/2, 1 - 3/2] : List ℝ) = [0.5 - 5/2, 1 - 5/2]) := by
  norm_num

theorem I_wOracle_3_2 : Main.I_value wOracle 3 2 1 = .ok 0 := by
  rw [show wOracle = keyOracle wfun from rfl,
    I_value_keyOracle wfun 3 2 1 (by norm_num) (by norm_num) (by norm_num)
      (by norm_num)]
  congr 1
  unfold wfun
  rw [if_neg blist_3_ne, if_pos z_two_eq]
  have hpi := Real.pi_ne_zero
  field_simp
  ring

theorem I_wOracle_3_1 : Main.I_value wOracle 3 1 1 = .ok 0 := by
  rw [show wOracle = keyOracle wfun from rfl,
    I_value_keyOracle wfun 3 1 1 (by norm_num) (by norm_num) (by norm_num)
      (by norm_num)]
  congr 1
  unfold wfun
  rw [if_neg blist_3_ne, if_neg z_one_ne]
  have hpi := Real.pi_ne_zero
  field_simp
  ring

theorem I_wOracle_5_2 : Main.I_value wOracle 5 2 1 = .ok 0 := by
  rw [show wOracle = keyOracle wfun from rfl,
    I_value_keyOracle wfun 5 2 1 (by norm_num) (by norm_num) (by norm_num)
      (by norm_num)]
  congr 1
  unfold wfun
  rw [if_pos rfl, if_pos z_two_eq]
  have hpi := Real.pi_ne_zero
  field_simp
  ring

theorem I_wOracle_5_1 : Main.I_value wOracle 5 1 1 = .ok 2 := by
  rw [show wOracle = keyOracle wfun from rfl,
    I_value_keyOracle wfun 5 1 1 (by norm_num) (by norm_num) (by norm_num)
      (by norm_num)]
  congr 1
  unfold wfun
  rw [if_pos rfl, if_neg z_one_ne]
  have hpi := Real.pi_ne_zero
  field_simp
  ring

theorem gdef_w_3_2 : Main.gamma_eff_default wOracle 3 (1/2) 2 = .ok 1 :=
  gamma_default_of_I1_zero wOracle 3 (1/2) 2 I_wOracle_3_2

theorem gdef_w_3_1 : Main.gamma_eff_default wOracle 3 (1/2) 1 = .ok 1 :=
  gamma_default_of_I1_zero wOracle 3 (1/2) 1 I_wOracle_3_1

theorem gdef_w_5_2 : Main.gamma_eff_default wOracle 5 (1/2) 2 = .ok 1 :=
  gamma_default_of_I1_zero wOracle 5 (1/2) 2 I_wOracle_5_2

theorem gdef_w_5_1 :
    Main.gamma_eff_default wOracle 5 (1/2) 1 = .error .zeroDivision :=
  gamma_default_of_I1_two wOracle 5 1 I_wOracle_5_1

theorem curve_w3 : Main.curve wOracle 3 (1/2) [2, 1] = .ok [1, 1] := by
  unfold Main.curve
  simp only [List.mapM_cons, List.mapM_nil, gdef_w_3_2, gdef_w_3_1, ok_bind,
    pure_eq_ok]

theorem curve_w5_err :
    Main.curve wOracle 5 (1/2) [2, 1] = .error .zeroDivision := by
  unfold Main.curve
  simp only [List.mapM_cons, gdef_w_5_2, gdef_w_5_1, ok_bind, error_bind]

theorem sweep_w_err :
    Main.sweep wOracle (1/2) [3, 5] [2, 1] = .error .zeroDivision := by
  unfold Main.sweep
  simp only [List.mapM_cons, curve_w3, curve_w5_err, ok_bind, error_bind]

/-- A traversal over `pre ++ x :: post` whose `pre` elements all succeed
and whose element `x` fails aborts with `x`'s error. -/
theorem mapM_prefix_ok_error {α β : Type} (f : α → Except PyErr β) :
    ∀ (pre : List α) (x : α) (post : List α) (e : PyErr),
      (∀ y ∈ pre, ∃ g, f y = .ok g) → f x = .error e →
      List.mapM f (pre ++ x :: post) = .error e := by
  intro pre
  induction pre with
  | nil =>
      intro x post e _ hx
      simp only [List.nil_append, List.mapM_cons, hx, error_bind]
  | cons y pre ih =>
      intro x post e hpre hx
      obtain ⟨g, hg⟩ := hpre y (List.mem_cons_self y pre)
      simp only [List.cons_append, List.mapM_cons, hg, ok_bind]
      rw [ih x post e (fun z hz => hpre z (List.mem_cons_of_mem y hz)) hx]
      rfl

/-! ### Claim theorems -/

/-- C1 (amended): for every n≠1, ν>0, 0<k<1, tol>0 and max_iter, the solver
starts from Γ = 1.0 and repeats the update Γ_next = 1/(1−(1−k)·I(n,ν,Γ)):
if the stopping condition |Γ_next−Γ| < tol first holds at step m < max_iter,
it returns that Γ_next; if max_iter iterations elapse without the condition
holding (and no step raises an arithmetic error), it raises the
convergence-failure error — whose payload identifies the offending ν, and ν
only: the raised error does not record n. -/
theorem claim_C1_solver_behavior (O : Oracle) (n k nu tol : ℝ) (maxIter : ℕ)
    (hn : n ≠ 1) (hnu : 0 < nu) (hk0 : 0 < k) (hk1 : k < 1) (htol : 0 < tol) :
    (∀ m b, m < maxIter → (∀ j, j < m → ¬ convAt O n k nu tol j) →
      (∃ a, gammaIter O n k nu m = .ok a ∧ gammaIter O n k nu (m + 1) = .ok b ∧
        |b - a| < tol) →
      Main.gamma_eff O n k nu tol maxIter = .ok b) ∧
    ((∀ j, j < maxIter → ¬ convAt O n k nu tol j) →
      (∀ j, j ≤ maxIter → ∃ g, gammaIter O n k nu j = .ok g) →
      Main.gamma_eff O n k nu tol maxIter = .error (.convergenceFailure nu)) := by
  constructor
  · intro m b hm hnc hconv
    unfold Main.gamma_eff
    apply gammaLoop_reaches_conv m 0 maxIter 1 b rfl hm
    · intro j _ hjm
      exact hnc j (by omega)
    · simpa using hconv
  · intro hnc hok
    unfold Main.gamma_eff
    apply gammaLoop_noconv maxIter 0 1 rfl
    · intro j _ hjm
      exact hnc j (by omega)
    · intro j hj
      exact hok j (by omega)

/-- Witness for C1: a concrete run (library interpretation `ceOracle (4π)⁻¹`,
n = 3, k = 1/2, ν = 1, tol = 1, max_iter = 1) in which the stopping
condition holds at the very first step, so the solver returns that step's
update value 1. -/
theorem claim_C1_witness :
    ((3:ℝ) ≠ 1) ∧ ((0:ℝ) < 1) ∧ ((0:ℝ) < 1/2) ∧ ((1:ℝ)/2 < 1) ∧ ((0:ℝ) < 1) ∧
    Main.gamma_eff (ceOracle (4*Real.pi)⁻¹) 3 (1/2) 1 1 1 = .ok 1 := by
  have hb : gammaIter (ceOracle (4*Real.pi)⁻¹) 3 (1/2) 1 1 = .ok 1 := by
    rw [gammaIter_succ]
    rw [show gammaIter (ceOracle (4*Real.pi)⁻¹) 3 (1/2) 1 0 = .ok 1 from rfl]
    simp only [ok_bind]
    rw [I_value_c1]
    simp only [ok_bind]
    rw [show (1:ℝ) - (1 - 1/2) * 0 = 1 by norm_num, pydiv_ok one_ne_zero]
    norm_num
  refine ⟨by norm_num, by norm_num, by norm_num, by norm_num, by norm_num, ?_⟩
  apply (claim_C1_solver_behavior (ceOracle (4*Real.pi)⁻¹) 3 (1/2) 1 1 1
    (by norm_num) (by norm_num) (by norm_num) (by norm_num) (by norm_num)).1 0 1
    (by norm_num) (fun j hj => absurd hj (Nat.not_lt_zero j))
  exact ⟨1, rfl, hb, by norm_num⟩

/-- Counterexample to C1 as stated: the convergence-failure error raised by
the solver does not identify n.  Two runs over the same ν = 1 with distinct
n (2 and 3) raise equal errors, so the error cannot identify the offending
n; its payload is ν alone. -/
theorem claim_C1_counterexample :
    Main.gamma_eff (ceOracle 0) 2 (1/2) 1 1 0 = .error (.convergenceFailure 1) ∧
    Main.gamma_eff (ceOracle 0) 3 (1/2) 1 1 0 = .error (.convergenceFailure 1) ∧
    (2:ℝ) ≠ 3 :=
  ⟨rfl, rfl, by norm_num⟩

/-- C2 (confirmed): on the valid domain n ≠ 1, ν > 0 the kernel returns
exactly the claim's closed form prefactor·(term1+term2), with regPFq the
hypergeometric sum divided by the product of gamma values of the
denominator parameters.  The modelling hypothesis `hg` records that the
gamma function has no zeros (true of Γ), so the regularizing division is
well defined. -/
theorem claim_C2_kernel_formula (O : Oracle) (n nu Γ : ℝ) (hn : n ≠ 1)
    (hnu : 0 < nu) (hg : ∀ x, O.gammaF x ≠ 0) :
    Main.I_value O n nu Γ = .ok (I_spec O n nu Γ) :=
  I_value_ok O Γ hn (ne_of_gt hnu) hg

/-- Witness for C2 at n = 2, ν = 1, Γ = 5 with a concrete oracle. -/
theorem claim_C2_witness :
    ((2:ℝ) ≠ 1) ∧ ((0:ℝ) < 1) ∧ (∀ x : ℝ, (ceOracle 0).gammaF x ≠ 0) ∧
    Main.I_value (ceOracle 0) 2 1 5 = .ok (I_spec (ceOracle 0) 2 1 5) :=
  ⟨by norm_num, by norm_num, fun _ => one_ne_zero,
    claim_C2_kernel_formula (ceOracle 0) 2 1 5 (by norm_num) (by norm_num)
      (fun _ => one_ne_zero)⟩

/-- C7 (confirmed): with k = 1 the update multiplier (1−k) is 0, the first
update gives Γ_next = 1/(1−0) = 1, so |Γ_next − Γ| = 0 < tol and the solver
returns 1.0 on the first iteration, for every valid n ≠ 1 and ν > 0
(independently of their values). -/
theorem claim_C7_k_one_returns_one (O : Oracle) (n nu tol : ℝ) (maxIter : ℕ)
    (hn : n ≠ 1) (hnu : 0 < nu) (htol : 0 < tol) (hm : 1 ≤ maxIter)
    (hg : ∀ x, O.gammaF x ≠ 0) :
    Main.gamma_eff O n 1 nu tol maxIter = .ok 1 :=
  gamma_eff_k_one O hn (ne_of_gt hnu) hg htol hm

/-- Witness for C7 at n = 2, ν = 1, tol = 10⁻¹⁰, max_iter = 200. -/
theorem claim_C7_witness :
    ((2:ℝ) ≠ 1) ∧ ((0:ℝ) < 1) ∧ ((0:ℝ) < (1e-10:ℝ)) ∧ (1 ≤ 200) ∧
    Main.gamma_eff (ceOracle 0) 2 1 1 (1e-10) 200 = .ok 1 :=
  ⟨by norm_num, by norm_num, by norm_num, by norm_num,
    claim_C7_k_one_returns_one (ceOracle 0) 2 1 (1e-10) 200 (by norm_num)
      (by norm_num) (by norm_num) (by norm_num) (fun _ => one_ne_zero)⟩

/-- C3 (amended): the solver has no division-singularity guard.  A step
whose update denominator 1−(1−k)·I is exactly zero raises ZeroDivisionError
from the division itself; a step whose denominator is nonzero — however
small — computes the reciprocal and returns or propagates it unchecked; and
no run ever signals the specification's DivisionSingularity: every raised
error is ZeroDivisionError or the convergence failure. -/
theorem claim_C3_no_singularity_guard (O : Oracle) (n k nu tol Γ I : ℝ)
    (fuel : ℕ) :
    (Main.I_value O n nu Γ = .ok I → 1 - (1 - k) * I = 0 →
      Main.gammaLoop O n k nu tol Γ (fuel + 1) = .error .zeroDivision) ∧
    (Main.I_value O n nu Γ = .ok I → 1 - (1 - k) * I ≠ 0 →
      Main.gammaLoop O n k nu tol Γ (fuel + 1) =
        if |1 / (1 - (1 - k) * I) - Γ| < tol then .ok (1 / (1 - (1 - k) * I))
        else Main.gammaLoop O n k nu tol (1 / (1 - (1 - k) * I)) fuel) ∧
    (∀ (maxIter : ℕ) (e : PyErr),
      Main.gamma_eff O n k nu tol maxIter = .error e →
      e = .zeroDivision ∨ e = .convergenceFailure nu) :=
  ⟨fun hI hd => gammaLoop_step_div hI hd,
   fun hI hd => gammaLoop_step hI hd,
   fun _ e h => gamma_eff_error h⟩

/-- Witness for C3: a concrete step with denominator exactly zero raises
ZeroDivisionError. -/
theorem claim_C3_witness :
    Main.I_value (ceOracle (2 + (4*Real.pi)⁻¹)) 3 1 1 = .ok 2 ∧
    (1:ℝ) - (1 - 1/2) * 2 = 0 ∧
    Main.gammaLoop (ceOracle (2 + (4*Real.pi)⁻¹)) 3 (1/2) 1 1 1 (0 + 1) =
      .error .zeroDivision :=
  ⟨I_value_c5, by norm_num,
    (claim_C3_no_singularity_guard (ceOracle (2 + (4*Real.pi)⁻¹)) 3 (1/2) 1 1 1 2
      0).1 I_value_c5 (by norm_num)⟩

/-- Counterexample to C3 as stated: under a library interpretation making
the first update denominator 10⁻³⁰ — numerically approaching zero — the
solver signals nothing: it computes Γ_next = 10³⁰ and returns it.  No
DivisionSingularity is raised and the huge value is propagated. -/
theorem claim_C3_counterexample :
    (1:ℝ) - (1 - 1/2) * (2 - 2e-30) = 1e-30 ∧
    Main.gamma_eff (ceOracle (2 - 2e-30 + (4*Real.pi)⁻¹)) 3 (1/2) 1 (1e40) 200 =
      .ok 1e30 := by
  refine ⟨by norm_num, ?_⟩
  show Main.gammaLoop (ceOracle (2 - 2e-30 + (4*Real.pi)⁻¹)) 3 (1/2) 1 (1e40) 1
    (199 + 1) = .ok 1e30
  apply gammaLoop_tinyDenom
  rw [abs_of_nonneg (show (0:ℝ) ≤ 1e30 - 1 by norm_num)]
  norm_num

/-- C4 (amended): inputs n = 1 or ν = 0 are not pre-validated and no
DomainError exists anywhere: the kernel itself raises ZeroDivisionError
while computing the prefactor — before any hypergeometric evaluation, so
the result is independent of the library interpretation — and the solver
surfaces that ZeroDivisionError; every error any run raises is either
ZeroDivisionError or the convergence failure, never a DomainError. -/
theorem claim_C4_domain_behavior :
    (∀ (O : Oracle) (nu Γ : ℝ), Main.I_value O 1 nu Γ = .error .zeroDivision) ∧
    (∀ (O : Oracle) (n Γ : ℝ), Main.I_value O n 0 Γ = .error .zeroDivision) ∧
    (∀ (O O' : Oracle) (nu Γ : ℝ),
      Main.I_value O 1 nu Γ = Main.I_value O' 1 nu Γ) ∧
    (∀ (O : Oracle) (k nu tol : ℝ) (fuel : ℕ),
      Main.gamma_eff O 1 k nu tol (fuel + 1) = .error .zeroDivision) ∧
    (∀ (O : Oracle) (n k nu tol : ℝ) (maxIter : ℕ) (e : PyErr),
      Main.gamma_eff O n k nu tol maxIter = .error e →
      e = .zeroDivision ∨ e = .convergenceFailure nu) :=
  ⟨fun O nu Γ => I_value_n1 O nu Γ,
   fun O n Γ => I_value_nu0 O n Γ,
   fun O O' nu Γ => by rw [I_value_n1, I_value_n1],
   fun O k nu tol fuel => gamma_eff_n1 O k nu tol fuel,
   fun _ _ _ _ _ _ e h => gamma_eff_error h⟩

/-- Witness for C4: the error classification applied to a concrete failing
run at n = 1. -/
theorem claim_C4_witness :
    Main.gamma_eff (ceOracle 0) 1 (1/2) 1 1 (0 + 1) = .error .zeroDivision ∧
    (PyErr.zeroDivision = PyErr.zeroDivision ∨
      PyErr.zeroDivision = PyErr.convergenceFailure 1) := by
  have h := claim_C4_domain_behavior.2.2.2.1 (ceOracle 0) (1/2) 1 1 0
  exact ⟨h, claim_C4_domain_behavior.2.2.2.2 (ceOracle 0) 1 (1/2) 1 1 (0 + 1)
    PyErr.zeroDivision h⟩

/-- Counterexample to C4 as stated: at n = 1 the raised error is the
ZeroDivisionError originating inside the kernel (`I_value` itself returns
it), not a DomainError surfaced by the caller before the kernel is
entered. -/
theorem claim_C4_counterexample :
    Main.I_value (ceOracle 0) 1 1 1 = .error .zeroDivision ∧
    Main.gamma_eff (ceOracle 0) 1 (1/2) 1 (1e-10) 200 = .error .zeroDivision ∧
    PyErr.zeroDivision ≠ PyErr.domainError := by
  refine ⟨I_value_n1 (ceOracle 0) 1 1, ?_, fun h => PyErr.noConfusion h⟩
  show Main.gamma_eff (ceOracle 0) 1 (1/2) 1 (1e-10) (199 + 1) =
    .error .zeroDivision
  exact gamma_eff_n1 (ceOracle 0) (1/2) 1 (1e-10) 199

/-- C5 (amended): a per-point failure anywhere in the sweep is not
recorded: if the solve at grid point ν of exponent n fails — with every
earlier grid point of n's curve and every earlier exponent's whole curve
succeeding, so that this point is actually reached — the exception
propagates out of the per-curve comprehension (aborting n's curve) and out
of the n-loop, aborting the entire sweep with that bare error: no curves
and no failed-coordinate report are returned, and the remaining grid
points and n values are not processed. -/
theorem claim_C5_sweep_aborts (O : Oracle) (k n nu : ℝ)
    (preN postN pre post : List ℝ) (e : PyErr)
    (hpreN : ∀ m ∈ preN, ∃ c, Main.curve O m k (pre ++ nu :: post) = .ok c)
    (hpre : ∀ x ∈ pre, ∃ g, Main.gamma_eff_default O n k x = .ok g)
    (hfail : Main.gamma_eff_default O n k nu = .error e) :
    Main.curve O n k (pre ++ nu :: post) = .error e ∧
    Main.sweep O k (preN ++ n :: postN) (pre ++ nu :: post) = .error e := by
  have hcurve : Main.curve O n k (pre ++ nu :: post) = .error e := by
    unfold Main.curve
    exact mapM_prefix_ok_error _ pre nu post e hpre hfail
  refine ⟨hcurve, ?_⟩
  unfold Main.sweep
  exact mapM_prefix_ok_error _ preN n postN e hpreN hcurve

/-- Witness for C5: a mid-sweep failure.  Over the grid [2, 1] and n-list
[3, 5], the whole n = 3 curve succeeds and the point (n = 5, ν = 2)
succeeds; the later point (n = 5, ν = 1) raises ZeroDivisionError, and the
sweep aborts with that error. -/
theorem claim_C5_witness :
    (∀ m ∈ ([3] : List ℝ), ∃ c,
      Main.curve wOracle m (1/2) ([2] ++ 1 :: []) = .ok c) ∧
    (∀ x ∈ ([2] : List ℝ), ∃ g,
      Main.gamma_eff_default wOracle 5 (1/2) x = .ok g) ∧
    Main.gamma_eff_default wOracle 5 (1/2) 1 = .error .zeroDivision ∧
    Main.curve wOracle 5 (1/2) ([2] ++ 1 :: []) = .error .zeroDivision ∧
    Main.sweep wOracle (1/2) ([3] ++ 5 :: []) ([2] ++ 1 :: []) =
      .error .zeroDivision := by
  have hpreN : ∀ m ∈ ([3] : List ℝ), ∃ c,
      Main.curve wOracle m (1/2) ([2] ++ 1 :: []) = .ok c := by
    intro m hm
    rw [List.mem_singleton.mp hm]
    exact ⟨[1, 1], curve_w3⟩
  have hpre : ∀ x ∈ ([2] : List ℝ), ∃ g,
      Main.gamma_eff_default wOracle 5 (1/2) x = .ok g := by
    intro x hx
    rw [List.mem_singleton.mp hx]
    exact ⟨1, gdef_w_5_2⟩
  obtain ⟨h1, h2⟩ := claim_C5_sweep_aborts wOracle (1/2) 5 1 [3] [] [2] []
    PyErr.zeroDivision hpreN hpre gdef_w_5_1
  exact ⟨hpreN, hpre, gdef_w_5_1, h1, h2⟩

/-- Counterexample to C5 as stated: sweeping n-list [3, 5] over the grid
[2, 1], the n = 3 curve computes fully and the point (n = 5, ν = 2)
succeeds, but the per-point ZeroDivisionError at (n = 5, ν = 1) makes the
sweep's value the bare error: the failed coordinate is not recorded, the
successfully computed n = 3 curve is discarded rather than returned, and
nothing is paired with a failure list. -/
theorem claim_C5_counterexample :
    Main.curve wOracle 3 (1/2) [2, 1] = .ok [1, 1] ∧
    Main.gamma_eff_default wOracle 5 (1/2) 2 = .ok 1 ∧
    Main.gamma_eff_default wOracle 5 (1/2) 1 = .error .zeroDivision ∧
    Main.sweep wOracle (1/2) [3, 5] [2, 1] = .error .zeroDivision :=
  ⟨curve_w3, gdef_w_5_2, gdef_w_5_1, sweep_w_err⟩

/-- C6 (amended): the regularized evaluator literally divides the raw
hypergeometric sum by the gamma-function product of the denominator list —
the product is formed unconditionally, with no special direct path when
some b_j is (near) a non-positive integer; a zero product makes the
division raise ZeroDivisionError. -/
theorem claim_C6_hyper_reg_divides (O : Oracle) (a b : List ℝ) (z : ℝ) :
    Main.hyper_reg O a b z =
      if (b.map O.gammaF).prod = 0 then .error .zeroDivision
      else .ok (regPFq O a b z) := by
  unfold Main.hyper_reg pydiv regPFq
  rw [gammaProduct_eq_prod]

/-- Counterexample to C6 as stated: on a denominator list containing the
non-positive integer 0, the output of hyper_reg changes when only the gamma
value at 0 changes (the two oracles agree on `hyper` everywhere and on
`gammaF` away from 0): the possibly-singular gamma product is formed and
divided by — there is no direct regularized path. -/
theorem claim_C6_counterexample :
    (∀ x : ℝ, x ≠ 0 → oracleGammaOne.gammaF x = oracleGammaTwo.gammaF x) ∧
    oracleGammaOne.hyper = oracleGammaTwo.hyper ∧
    Main.hyper_reg oracleGammaOne [-0.5] [0, 1] 0 = .ok 1 ∧
    Main.hyper_reg oracleGammaTwo [-0.5] [0, 1] 0 = .ok (1/2) ∧
    (1:ℝ) ≠ 1/2 := by
  refine ⟨fun x hx => ?_, rfl, ?_, ?_, by norm_num⟩
  · simp [oracleGammaOne, oracleGammaTwo, hx]
  · norm_num [Main.hyper_reg, Main.gammaProduct, pydiv, oracleGammaOne,
      List.foldl]
  · norm_num [Main.hyper_reg, Main.gammaProduct, pydiv, oracleGammaTwo,
      List.foldl]

theorem curve_get (O : Oracle) (n k : ℝ) :
    ∀ (nus gs : List ℝ), Main.curve O n k nus = .ok gs →
      gs.length = nus.length ∧
      ∀ (i : ℕ) (hi : i < nus.length) (hg : i < gs.length),
        Main.gamma_eff_default O n k (nus.get ⟨i, hi⟩) = .ok (gs.get ⟨i, hg⟩) := by
  intro nus
  induction nus with
  | nil =>
      intro gs h
      unfold Main.curve at h
      rw [List.mapM_nil] at h
      have hgs : gs = [] := by
        have h' : ([] : List ℝ) = gs := by simpa [pure_eq_ok] using h
        exact h'.symm
      subst hgs
      exact ⟨rfl, fun i hi _ => absurd hi (by simp)⟩
  | cons nu nus ih =>
      intro gs h
      unfold Main.curve at h
      simp only [List.mapM_cons] at h
      cases hx : Main.gamma_eff_default O n k nu with
      | error e =>
          rw [hx, error_bind] at h
          exact absurd h (by simp)
      | ok g =>
          rw [hx] at h
          simp only [ok_bind] at h
          cases hxs : List.mapM (fun nu => Main.gamma_eff_default O n k nu) nus with
          | error e =>
              rw [hxs, error_bind] at h
              exact absurd h (by simp)
          | ok tl =>
              rw [hxs] at h
              simp only [ok_bind, pure_eq_ok] at h
              have hgs : gs = g :: tl := by
                have h' : g :: tl = gs := by simpa using h
                exact h'.symm
              subst hgs
              have htl := ih tl (by unfold Main.curve; exact hxs)
              refine ⟨by simp [htl.1], ?_⟩
              intro i hi hg
              cases i with
              | zero => simpa using hx
              | succ i =>
                  simp only [List.get_cons_succ]
                  exact htl.2 i (by simpa using hi) (by simpa using hg)

/-- C8 (confirmed): the solver is a pure function of its inputs.  Every
element of a sweep curve equals exactly what an isolated invocation of the
solver on that grid point alone produces, and two solves of the same point
— in the same or in different sweeps — yield equal results: no solve
observes or mutates state belonging to any other solve.  (Bit-identity of
the claim becomes value equality in the real-valued model.) -/
theorem claim_C8_determinism (O : Oracle) (n k : ℝ) :
    (∀ (nus gs : List ℝ), Main.curve O n k nus = .ok gs →
      gs.length = nus.length ∧
      ∀ (i : ℕ) (hi : i < nus.length) (hg : i < gs.length),
        Main.gamma_eff_default O n k (nus.get ⟨i, hi⟩) = .ok (gs.get ⟨i, hg⟩)) ∧
    (∀ (nus nus' gs gs' : List ℝ) (i j : ℕ)
      (hi : i < nus.length) (hj : j < nus'.length)
      (hgi : i < gs.length) (hgj : j < gs'.length),
      Main.curve O n k nus = .ok gs → Main.curve O n k nus' = .ok gs' →
      nus.get ⟨i, hi⟩ = nus'.get ⟨j, hj⟩ →
      gs.get ⟨i, hgi⟩ = gs'.get ⟨j, hgj⟩) := by
  refine ⟨curve_get O n k, ?_⟩
  intro nus nus' gs gs' i j hi hj hgi hgj hc hc' heq
  have h1 := (curve_get O n k nus gs hc).2 i hi hgi
  have h2 := (curve_get O n k nus' gs' hc').2 j hj hgj
  rw [heq] at h1
  rw [h1] at h2
  simpa using h2

/-- Witness for C8: a concrete converging one-point curve, whose single
element is the isolated solver result. -/
theorem claim_C8_witness :
    Main.curve (ceOracle (4*Real.pi)⁻¹) 3 (1/2) [1] = .ok [1] ∧
    Main.gamma_eff_default (ceOracle (4*Real.pi)⁻¹) 3 (1/2)
      (([(1:ℝ)]).get ⟨0, by norm_num⟩) = .ok (([(1:ℝ)]).get ⟨0, by norm_num⟩) := by
  refine ⟨curve_c1, ?_⟩
  exact ((claim_C8_determinism (ceOracle (4*Real.pi)⁻¹) 3 (1/2)).1 [1] [1]
    curve_c1).2 0 (by norm_num) (by norm_num)

/-- C9 (confirmed): the physical-rate mapping ν = 2.887·(r_u/C2)^1.171 with
C2 = 3.24·π^(2/3) is strictly increasing on r_u > 0 (hence injective and
order-preserving, a bijection onto its range), and composing with the
explicit inverse recovers r_u exactly in the real-valued model. -/
theorem claim_C9_rate_map :
    (∀ r s : ℝ, 0 < r → r < s → XPB.nuOfRu r < XPB.nuOfRu s) ∧
    (∀ r : ℝ, 0 < r → XPB.ruOfNu (XPB.nuOfRu r) = r) := by
  have hC2 : (0:ℝ) < 3.24 * Real.pi ^ ((2:ℝ)/3) := by positivity
  constructor
  · intro r s hr hrs
    unfold XPB.nuOfRu
    have h1 : r / (3.24 * Real.pi ^ ((2:ℝ)/3)) <
        s / (3.24 * Real.pi ^ ((2:ℝ)/3)) := by gcongr
    have h2 : (r / (3.24 * Real.pi ^ ((2:ℝ)/3))) ^ (1.171:ℝ) <
        (s / (3.24 * Real.pi ^ ((2:ℝ)/3))) ^ (1.171:ℝ) :=
      Real.rpow_lt_rpow (le_of_lt (div_pos hr hC2)) h1 (by norm_num)
    exact mul_lt_mul_of_pos_left h2 (by norm_num)
  · intro r hr
    unfold XPB.nuOfRu XPB.ruOfNu
    have hbase : (0:ℝ) ≤ r / (3.24 * Real.pi ^ ((2:ℝ)/3)) :=
      le_of_lt (div_pos hr hC2)
    rw [mul_div_cancel_left₀ _ (by norm_num : (2.887:ℝ) ≠ 0)]
    rw [Real.rpow_rpow_inv hbase (by norm_num : (1.171:ℝ) ≠ 0)]
    field_simp

/-- Witness for C9 at r_u = 1 and r_u = 2. -/
theorem claim_C9_witness :
    ((0:ℝ) < 1) ∧ ((1:ℝ) < 2) ∧ XPB.nuOfRu 1 < XPB.nuOfRu 2 ∧
    XPB.ruOfNu (XPB.nuOfRu 1) = 1 :=
  ⟨by norm_num, by norm_num, claim_C9_rate_map.1 1 2 (by norm_num) (by norm_num),
    claim_C9_rate_map.2 1 (by norm_num)⟩

theorem xpbLoop_succ (O : Oracle) (n k nu tol Γ : ℝ) (fuel : ℕ) :
    XPB.gammaLoop O n k nu tol Γ (fuel + 1) = (do
      let I ← XPB.I_value O n nu Γ
      let Γnext ← pydiv 1 (1 - (1 - k) * I)
      if |Γnext - Γ| < tol then return Γnext
      else XPB.gammaLoop O n k nu tol Γnext fuel) := rfl

theorem loops_eq (O : Oracle) (n k nu tol : ℝ) :
    ∀ (fuel : ℕ) (Γ : ℝ),
      Main.gammaLoop O n k nu tol Γ fuel = XPB.gammaLoop O n k nu tol Γ fuel := by
  intro fuel
  induction fuel with
  | zero => intro Γ; rfl
  | succ fuel ih =>
      intro Γ
      rw [gammaLoop_succ, xpbLoop_succ]
      rw [show XPB.I_value O n nu Γ = Main.I_value O n nu Γ from rfl]
      cases Main.I_value O n nu Γ with
      | error e => rfl
      | ok I =>
          simp only [ok_bind]
          cases pydiv 1 (1 - (1 - k) * I) with
          | error e => rfl
          | ok g =>
              simp only [ok_bind]
              split
              · rfl
              · exact ih g

/-- C10 (confirmed): the two source files define extensionally equal
helpers, kernels and solvers: `I_value` of `main.py` and `I_value` of
`XPB_plot.py` agree on every input, and `gamma_eff` and `gamma_eff_PB`
return the same value or raise the same error on every input. -/
theorem claim_C10_files_agree :
    (∀ (O : Oracle) (a b : List ℝ) (z : ℝ),
      Main.hyper_reg O a b z = XPB.hyper_reg O a b z) ∧
    (∀ (O : Oracle) (n nu Γ : ℝ),
      Main.I_value O n nu Γ = XPB.I_value O n nu Γ) ∧
    (∀ (O : Oracle) (n k nu tol : ℝ) (maxIter : ℕ),
      Main.gamma_eff O n k nu tol maxIter = XPB.gamma_eff_PB O n k nu tol maxIter) := by
  refine ⟨fun O a b z => rfl, fun O n nu Γ => rfl, fun O n k nu tol maxIter => ?_⟩
  exact loops_eq O n k nu tol maxIter 1

end PerssonBrener
